import Mathlib

/-
  Verification of the evaluation engine of the llm-rules-test repository.

  The model below is a shallow embedding of:
  * the JUnit converter's line locator (`findLineSmart`, `deriveLine`);
  * the OpenAI call wrapper with retry/backoff (`callModel`);
  * the per-rule lint task and per-file pipeline (`lintOne`, `main`);
  * the dependency-free promise pool (`runPool`), modelled as a small-step
    transition system over all interleavings of its workers.

  JS strings are modelled as `List Char`; JS numbers appearing in the engine
  are modelled as `ℚ` (all arithmetic in these code paths is exact) and
  status codes as `Int`.  Case mapping (`toLowerCase`) is modelled by
  `Char.toLower` (ASCII mapping).
-/

namespace LlmLint

/-! ## Low-level string helpers (models of the JS string operations used) -/

/-- Characters matched by the JS regex class `\s` (ASCII subset). -/
def isWs (c : Char) : Bool :=
  c = ' ' || c = '\t' || c = '\n' || c = '\r' || c = '\x0b' || c = '\x0c'

/-- Does the second list start with the first one?  (Helper for `indexOf`.) -/
def headMatches : List Char → List Char → Bool
  | [], _ => true
  | _ :: _, [] => false
  | p :: ps, c :: cs => p == c && headMatches ps cs

/-- Model of JS `hay.indexOf(pat)`: index of the first occurrence of `pat`
in `hay`, `none` when absent (JS returns `-1`). -/
def indexOfSub (pat : List Char) : List Char → Option Nat
  | [] => if headMatches pat [] then some 0 else none
  | c :: rest =>
    if headMatches pat (c :: rest) then some 0
    else (indexOfSub pat rest).map (· + 1)

/-- Model of JS `hay.includes(pat)`. -/
def containsSub (pat hay : List Char) : Bool :=
  (indexOfSub pat hay).isSome

/-- Model of JS `s.split(/\r?\n/)`: split at each `\n`, swallowing an
immediately preceding `\r`.  `acc` holds the current segment reversed. -/
def splitLinesAux : List Char → List Char → List (List Char)
  | acc, [] => [acc.reverse]
  | acc, '\r' :: '\n' :: rest => acc.reverse :: splitLinesAux [] rest
  | acc, '\n' :: rest => acc.reverse :: splitLinesAux [] rest
  | acc, c :: rest => splitLinesAux (c :: acc) rest

def splitLines (s : List Char) : List (List Char) :=
  splitLinesAux [] s

/-- Model of JS `s.trim()` (over the `\s` class above). -/
def trimWs (l : List Char) : List Char :=
  ((l.dropWhile isWs).reverse.dropWhile isWs).reverse

/-- Model of `s.replace(/\s+/g, ' ')`: collapse every whitespace run to one
space.  The flag records whether the previous character was whitespace. -/
def collapseRuns : Bool → List Char → List Char
  | _, [] => []
  | prevWs, c :: rest =>
    if isWs c then
      if prevWs then collapseRuns true rest
      else ' ' :: collapseRuns true rest
    else c :: collapseRuns false rest

/-- Model of the converter's `collapseWS`: `s.replace(/\s+/g, ' ').trim()`. -/
def collapseWS (l : List Char) : List Char :=
  trimWs (collapseRuns false l)

/-- Model of JS `s.toLowerCase()` (ASCII case mapping). -/
def lowerL (l : List Char) : List Char :=
  l.map Char.toLower

/-! ## LineLocator: `findLineSmart` and `deriveLine` (JUnit converter) -/

/-- First index (0-based) of a line that contains `needle`
(the `for` loops of strategies 1 and 2 of `findLineSmart`). -/
def scanContains (lines : List (List Char)) (needle : List Char) : Option Nat :=
  lines.findIdx? (fun ln => containsSub needle ln)

/-- Back-mapping loop of strategy 3 of `findLineSmart`: accumulate collapsed
lowercased line lengths (`+ 1` each) until the total reaches `idx`. -/
def backMapAux (idx : Nat) : Nat → Nat → List (List Char) → Option Nat
  | _, _, [] => none
  | acc, i, ln :: rest =>
    if idx ≤ acc + (collapseWS (lowerL ln)).length + 1 then some (i + 1)
    else backMapAux idx (acc + (collapseWS (lowerL ln)).length + 1) (i + 1) rest

/-- Model of `findLineSmart(src, needle)` from the JUnit converter:
strategy 0 exact substring (`src.indexOf`, line from the split of the
leading slice, with the `|| 1` fallback), strategy 1 per-line case-sensitive
contains, strategy 2 per-line case-insensitive contains, strategy 3
whitespace-collapsed case-insensitive contains with approximate back-mapping,
default 1. -/
def findLineSmart (src needle : List Char) : Nat :=
  if src.isEmpty || needle.isEmpty then 1
  else
    match indexOfSub needle src with
    | some idx =>
      if (splitLines (src.take idx)).length = 0 then 1
      else (splitLines (src.take idx)).length
    | none =>
      match scanContains (splitLines src) needle with
      | some i => i + 1
      | none =>
        match scanContains ((splitLines src).map lowerL) (lowerL needle) with
        | some i => i + 1
        | none =>
          match indexOfSub (collapseWS (lowerL needle)) (collapseWS (lowerL src)) with
          | some idx2 => (backMapAux idx2 0 0 (splitLines src)).getD 1
          | none => 1

/-- Value found at a fix object's `line` property: absent, a finite JS
number, or something `Number.isFinite` rejects (NaN, ±∞, non-numbers). -/
inductive JsLine where
  | missing
  | fin (q : ℚ)
  | nonFin
deriving DecidableEq

/-- A fix object, with the properties `deriveLine` inspects. -/
structure FixObj where
  line : JsLine := .missing
  before : Option (List Char) := none
  quote : Option (List Char) := none
  original : Option (List Char) := none
deriving DecidableEq

/-- An element of a `suggested_fixes` array as seen by the converter:
an object, a plain string, or some other non-object value. -/
inductive Fix where
  | obj (o : FixObj)
  | str (s : List Char)
  | nullv
deriving DecidableEq

/-- The quotation-bearing keys checked by `deriveLine`, in source order. -/
inductive FKey where
  | before
  | quote
  | original
deriving DecidableEq

/-- The explicit-line test of `deriveLine` step 1:
`fx && typeof fx === 'object' && Number.isFinite(fx.line) && fx.line > 0`,
yielding the accepted line value. -/
def explicitLineVal : Fix → Option ℚ
  | .obj o =>
    match o.line with
    | .fin q => if 0 < q then some q else none
    | _ => none
  | _ => none

/-- The key test of `deriveLine` step 2:
`fx && typeof fx === 'object' && typeof fx[key] === 'string' && fx[key].trim()`,
yielding the (untrimmed) field value. -/
def getKeyField (k : FKey) : Fix → Option (List Char)
  | .obj o =>
    match (match k with
           | .before => o.before
           | .quote => o.quote
           | .original => o.original) with
    | some s => if trimWs s = [] then none else some s
    | none => none
  | _ => none

/-- Inner loop of `deriveLine` step 2 for one key: first fix whose field
resolves through `findLineSmart` to a line strictly above 1. -/
def fixScan (src : List Char) (k : FKey) : List Fix → Option Nat
  | [] => none
  | fx :: rest =>
    match getKeyField k fx with
    | some s =>
      if 1 < findLineSmart src s then some (findLineSmart src s)
      else fixScan src k rest
    | none => fixScan src k rest

/-- Outer loop of `deriveLine` step 2 over the keys. -/
def keyScan (src : List Char) (fixes : List Fix) : List FKey → Nat
  | [] => 1
  | k :: ks =>
    match fixScan src k fixes with
    | some n => n
    | none => keyScan src fixes ks

/-- Model of `deriveLine(src, fixesArr)` from the JUnit converter. -/
def deriveLine (src : List Char) (fixes : List Fix) : Int :=
  if fixes = [] then 1
  else
    match fixes.findSome? explicitLineVal with
    | some q => Int.floor q
    | none => (keyScan src fixes [FKey.before, FKey.quote, FKey.original] : Int)

/-! ## OracleClient: `callModel` with retry/backoff -/

/-- The error shape thrown by the OpenAI SDK, as read by `callModel`:
`err?.status` and `err?.error?.type || err?.type` plus the message used by
`String(e?.message || e)`. -/
structure ApiErr where
  status : Option Int
  eType : Option String
  message : String

/-- One attempt's outcome at the transport: a response content string, or a
thrown error. -/
inductive CallOutcome where
  | ok (content : String)
  | fail (e : ApiErr)

/-- What `callModel` throws to its caller: either the synthetic
`Error('INSUFFICIENT_QUOTA')` carrying `insufficient_quota = true`, or the
original error (flag absent, i.e. false). -/
structure ThrownErr where
  insufficientQuota : Bool
  message : String

/-- Trace of one `callModel` invocation: final result, number of transport
calls made, and the backoff sleep durations (in order). -/
structure CallTrace where
  result : Except ThrownErr String
  calls : Nat
  sleeps : List ℚ

/-- Fatal classification: `type === 'insufficient_quota' || code === 402`. -/
def isFatalErr (status : Option Int) (eType : Option String) : Bool :=
  eType == some "insufficient_quota" || status == some 402

/-- Transient classification: `code === 429 || (code && code >= 500)`
(`code &&` models JS truthiness: a status of 0 or an absent status is falsy). -/
def isTransientStatus : Option Int → Bool
  | some c => c == 429 || (!(c == 0) && decide (500 ≤ c))
  | none => false

/-- The `while (true)` retry loop of `callModel`, entered with `attempt`
failures so far; `responses k` is the outcome of the (k+1)-th transport call
and `jitter a` the value of `Math.random() * 200` drawn when `attempt === a`.
The JS loop increments `attempt` after each failure, throws the quota error on
fatal classification, sleeps `300 * 2 ** (attempt - 1) + jitter` and retries on
a transient error while `attempt < maxRetries`, and rethrows otherwise. -/
def callModelGo (responses : Nat → CallOutcome) (jitter : Nat → ℚ)
    (maxRetries : Nat) (attempt : Nat) : CallTrace :=
  match responses attempt with
  | .ok content => ⟨.ok content, attempt + 1, []⟩
  | .fail e =>
    if isFatalErr e.status e.eType then
      ⟨.error ⟨true, "INSUFFICIENT_QUOTA"⟩, attempt + 1, []⟩
    else if h : isTransientStatus e.status = true ∧ attempt + 1 < maxRetries then
      ⟨(callModelGo responses jitter maxRetries (attempt + 1)).result,
       (callModelGo responses jitter maxRetries (attempt + 1)).calls,
       (300 * 2 ^ attempt + jitter (attempt + 1)) ::
         (callModelGo responses jitter maxRetries (attempt + 1)).sleeps⟩
    else
      ⟨.error ⟨false, e.message⟩, attempt + 1, []⟩
termination_by maxRetries - attempt
decreasing_by
  have := h.2
  omega

/-- Model of `callModel`: `MAX_RETRIES = 3`, `attempt` starts at 0. -/
def callModel (responses : Nat → CallOutcome) (jitter : Nat → ℚ) : CallTrace :=
  callModelGo responses jitter 3 0

/-! ## Pipeline: per-rule tasks, per-file lint, main aggregation -/

/-- A rule record, restricted to the fields the engine reads
(`rule.id`, `rule.markdown`; display-only fields are omitted). -/
structure RuleSpec where
  id : String
  markdown : String

/-- The per-rule judgment shape (`RuleResult` in types.ts); `suggested_fixes`
entries are opaque to the engine and modelled as strings. -/
structure RuleResult where
  id : String
  pass : Bool
  rationale : String
  suggested_fixes : List String

/-- The per-file result shape (`FileResult` in types.ts); `source` is present
only on results produced by `lintOne`. -/
structure FileResult where
  file : String
  overall_pass : Bool
  rules : List RuleResult
  source : Option String

/-- The report summary shape assembled in `main`. -/
structure Summary where
  model : String
  checked : Nat
  passed : Nat
  failed : Nat
  files : List FileResult

/-- One rule task of `lintOne` (the closure passed to `runRuleWithLogs`,
which returns the builder's result unchanged): call the model on the prompt
built from (rule, file, content), parse the JSON, force `parsed.id = rule.id`;
on any thrown error return the synthetic failing judgment.  `oracle` abstracts
`callModel ∘ buildPrompt` and `parse` abstracts `JSON.parse` (whose failure
message is caught by the same handler). -/
def lintTask (oracle : String → String → RuleSpec → Except ThrownErr String)
    (parse : String → Except String RuleResult)
    (file content : String) (rule : RuleSpec) : RuleResult :=
  match oracle file content rule with
  | .ok json =>
    match parse json with
    | .ok parsed => { parsed with id := rule.id }
    | .error m =>
      { id := rule.id, pass := false,
        rationale := "LLM call failed: " ++ m,
        suggested_fixes := ["Verify API key/org; try again."] }
  | .error e =>
    { id := rule.id, pass := false,
      rationale :=
        if e.insufficientQuota then "LLM call failed: insufficient quota."
        else "LLM call failed: " ++ e.message,
      suggested_fixes := ["Verify API key/org; try again."] }

/-- Model of `lintOne(file, rules)` after its pool call: one task per rule,
results in rule order (justified against the pool semantics by the claim C1
theorem), then `passed`/`failed` counting and `overall_pass = (failed === 0)`. -/
def lintOneModel (oracle : String → String → RuleSpec → Except ThrownErr String)
    (parse : String → Except String RuleResult)
    (file content : String) (rules : List RuleSpec) : FileResult :=
  { file := file,
    overall_pass :=
      ((rules.map (lintTask oracle parse file content)).length -
        ((rules.map (lintTask oracle parse file content)).filter
          (fun r => r.pass)).length) == 0,
    rules := rules.map (lintTask oracle parse file content),
    source := some content }

/-- A document as scheduled by `main`: a path plus either its (front-matter
stripped) content or the message of the error thrown while reading it. -/
structure DocInput where
  path : String
  content : Except String String

/-- One file task of `main`: `lintOne` wrapped in the catch that converts a
document-level error into the synthetic `engine_error` result. -/
def fileTaskModel (oracle : String → String → RuleSpec → Except ThrownErr String)
    (parse : String → Except String RuleResult)
    (rules : List RuleSpec) (d : DocInput) : FileResult :=
  match d.content with
  | .ok c => lintOneModel oracle parse d.path c rules
  | .error m =>
    { file := d.path, overall_pass := false,
      rules := [{ id := "engine_error", pass := false,
                  rationale := "Engine error: " ++ m,
                  suggested_fixes := [] }],
      source := none }

/-- Model of `main`'s file loop after its pool call: one file task per
document, results in document order. -/
def mainModel (oracle : String → String → RuleSpec → Except ThrownErr String)
    (parse : String → Except String RuleResult)
    (rules : List RuleSpec) (docs : List DocInput) : List FileResult :=
  docs.map (fileTaskModel oracle parse rules)

/-- Model of the summary object built in `main`. -/
def summaryModel (modelName : String) (out : List FileResult) : Summary :=
  { model := modelName,
    checked := out.length,
    passed := (out.filter (fun r => r.overall_pass)).length,
    failed := (out.filter (fun r => !r.overall_pass)).length,
    files := out }

/-- A readable document list (no read errors), as used by the claim C1
statement. -/
def okDocs (docs : List (String × String)) : List DocInput :=
  docs.map (fun d => ⟨d.1, Except.ok d.2⟩)

/-! ## TaskScheduler: the `runPool` promise pool as a transition system

`runPool` keeps a shared cursor `i`; each worker repeatedly claims
`idx = i++`, stops when `idx >= tasks.length`, and otherwise awaits
`tasks[idx]()` and writes `results[idx]`.  On the single-threaded JS event
loop the claim (read-increment-test) and the result write are each atomic;
the interleaving of different workers between those points is arbitrary.
The transition system below has exactly those two atomic actions per worker
and quantifies over every interleaving. -/

/-- A worker of `runPool`: about to claim, executing a claimed task, or
stopped after seeing an exhausted cursor. -/
inductive WStatus where
  | idle
  | running (idx : Nat)
  | done
deriving DecidableEq

/-- Shared state of one `runPool` invocation.  `claims` is the history of
indices handed out by the cursor (for the at-most-once-claim property). -/
structure PoolState (α : Type) where
  cursor : Nat
  workers : List WStatus
  results : List (Option α)
  claims : List Nat
deriving DecidableEq

/-- One atomic action of some worker `w`.  Tasks are modelled by the list of
their return values. -/
inductive PoolStep (tasks : List α) : PoolState α → PoolState α → Prop where
  | claimTask (s : PoolState α) (w : Nat)
      (hw : s.workers[w]? = some .idle) (hlt : s.cursor < tasks.length) :
      PoolStep tasks s
        ⟨s.cursor + 1, s.workers.set w (.running s.cursor), s.results,
         s.claims ++ [s.cursor]⟩
  | claimExhausted (s : PoolState α) (w : Nat)
      (hw : s.workers[w]? = some .idle) (hge : tasks.length ≤ s.cursor) :
      PoolStep tasks s
        ⟨s.cursor + 1, s.workers.set w .done, s.results, s.claims⟩
  | finishTask (s : PoolState α) (w idx : Nat)
      (hw : s.workers[w]? = some (.running idx)) :
      PoolStep tasks s
        ⟨s.cursor, s.workers.set w .idle, s.results.set idx tasks[idx]?,
         s.claims⟩

/-- Initial state of `runPool tasks limit`:
`Math.min(limit, tasks.length)` idle workers, an all-empty results array. -/
def initPool (tasks : List α) (limit : Nat) : PoolState α :=
  ⟨0, List.replicate (min limit tasks.length) .idle,
   List.replicate tasks.length none, []⟩

/-- All interleavings: states reachable from the initial state. -/
def poolReach (tasks : List α) (limit : Nat) (s : PoolState α) : Prop :=
  Relation.ReflTransGen (PoolStep tasks) (initPool tasks limit) s

/-- `Promise.all(workers)` has resolved: every worker has stopped. -/
def FinalPool (s : PoolState α) : Prop :=
  ∀ w ∈ s.workers, w = WStatus.done

/-- Inductive invariant of the pool.  `k` is the worker count. -/
structure PoolInv (tasks : List α) (k : Nat) (s : PoolState α) : Prop where
  wlen : s.workers.length = k
  rlen : s.results.length = tasks.length
  resFill : ∀ i, i < tasks.length →
    s.results[i]? = some tasks[i]? ∨
    (s.results[i]? = some none ∧
      (s.cursor ≤ i ∨ ∃ w : Nat, s.workers[w]? = some (WStatus.running i)))
  runLt : ∀ w i : Nat, s.workers[w]? = some (WStatus.running i) → i < tasks.length
  doneCur : ∀ w : Nat, s.workers[w]? = some WStatus.done → tasks.length < s.cursor
  claimsLt : ∀ c ∈ s.claims, c < s.cursor
  claimsSorted : s.claims.Pairwise (· < ·)

/-! ## Lemmas about the line locator -/

theorem splitLinesAux_length (acc l : List Char) :
    (splitLinesAux acc l).length = 1 + l.count '\n' := by
  induction acc, l using splitLinesAux.induct <;>
    simp_all +decide [splitLinesAux, List.count_cons] <;> omega

theorem splitLines_length (l : List Char) :
    (splitLines l).length = 1 + l.count '\n' :=
  splitLinesAux_length [] l

theorem explicitLineVal_pos (fx : Fix) (q : ℚ) (h : explicitLineVal fx = some q) :
    0 < q := by
  unfold explicitLineVal at h
  split at h
  · split at h
    · split at h
      · cases h
        assumption
      · cases h
    · cases h
  · cases h

theorem findSome?_explicit_pos (fixes : List Fix) (q : ℚ)
    (h : fixes.findSome? explicitLineVal = some q) : 0 < q := by
  induction fixes with
  | nil => simp [List.findSome?] at h
  | cons fx rest ih =>
    rw [List.findSome?_cons] at h
    cases hfx : explicitLineVal fx with
    | none =>
      rw [hfx] at h
      exact ih h
    | some q' =>
      rw [hfx] at h
      cases h
      exact explicitLineVal_pos fx q hfx

theorem fixScan_some_lt (src : List Char) (k : FKey) (fixes : List Fix) (n : Nat)
    (h : fixScan src k fixes = some n) : 1 < n := by
  induction fixes with
  | nil => simp [fixScan] at h
  | cons fx rest ih =>
    simp only [fixScan] at h
    cases hk : getKeyField k fx with
    | none =>
      rw [hk] at h
      exact ih h
    | some s =>
      simp only [hk] at h
      by_cases h1 : 1 < findLineSmart src s
      · rw [if_pos h1] at h
        cases h
        exact h1
      · rw [if_neg h1] at h
        exact ih h

theorem one_le_keyScan (src : List Char) (fixes : List Fix) (keys : List FKey) :
    1 ≤ keyScan src fixes keys := by
  induction keys with
  | nil => exact le_refl 1
  | cons k ks ih =>
    simp only [keyScan]
    cases hf : fixScan src k fixes with
    | none => exact ih
    | some n => exact le_of_lt (fixScan_some_lt src k fixes n hf)

theorem fixScan_eq_find? (src : List Char) (k : FKey) (fixes : List Fix) :
    fixScan src k fixes =
      ((fixes.filterMap (getKeyField k)).map (findLineSmart src)).find?
        (fun n => 1 < n) := by
  induction fixes with
  | nil => rfl
  | cons fx rest ih =>
    simp only [fixScan, List.filterMap_cons]
    cases hk : getKeyField k fx with
    | none => exact ih
    | some s =>
      simp only [List.map_cons, List.find?_cons]
      by_cases h1 : 1 < findLineSmart src s
      · simp [h1]
      · simp [h1, ih]

theorem keyScan_eq_find? (src : List Char) (fixes : List Fix) (keys : List FKey) :
    keyScan src fixes keys =
      ((keys.flatMap
          (fun k => (fixes.filterMap (getKeyField k)).map (findLineSmart src))).find?
        (fun n => 1 < n)).getD 1 := by
  induction keys with
  | nil => rfl
  | cons k ks ih =>
    simp only [keyScan, List.flatMap_cons, List.find?_append]
    rw [fixScan_eq_find?]
    cases hf : ((fixes.filterMap (getKeyField k)).map (findLineSmart src)).find?
        (fun n => 1 < n) with
    | none => simpa [hf] using ih
    | some n => simp [hf]

/-! ## Claim theorems: LineLocator (C5, C6, C7, C10) -/

/-- Claim C5: if some fix object carries an explicit positive integer line
number (the first fix accepted by the explicit-line scan carries the integer
`n`), `deriveLine` returns exactly `n`, independently of the source text —
no text search is performed (the result equals the result on an empty
source). -/
theorem claim_C5 (src : List Char) (fixes : List Fix) (n : Nat)
    (h : fixes.findSome? explicitLineVal = some (n : ℚ)) :
    deriveLine src fixes = n ∧ 1 ≤ n ∧ deriveLine src fixes = deriveLine [] fixes := by
  have hpos : 0 < ((n : ℚ)) := findSome?_explicit_pos fixes _ h
  have hn : 1 ≤ n := by
    have : 0 < n := by exact_mod_cast hpos
    omega
  have hne : fixes ≠ [] := by
    rintro rfl
    simp [List.findSome?] at h
  have hval : deriveLine src fixes = n := by
    unfold deriveLine
    rw [if_neg hne, h]
    exact_mod_cast Int.floor_natCast n
  have hval2 : deriveLine [] fixes = n := by
    unfold deriveLine
    rw [if_neg hne, h]
    exact_mod_cast Int.floor_natCast n
  exact ⟨hval, hn, hval.trans hval2.symm⟩

/-- Witness for claim C5: a fix `{line: 7}` resolves to exactly 7 although
the document content contains none of the quoted text. -/
theorem claim_C5_witness :
    deriveLine "AAA".data [Fix.obj { line := JsLine.fin 7, quote := some "zzz".data }] = 7 := by
  have h := claim_C5 "AAA".data
    [Fix.obj { line := JsLine.fin 7, quote := some "zzz".data }] 7 (by
      rw [List.findSome?_cons]
      have : explicitLineVal (Fix.obj { line := JsLine.fin 7, quote := some "zzz".data }) =
          some ((7 : Nat) : ℚ) := by
        simp only [explicitLineVal]
        rw [if_pos (by norm_num)]
        norm_num
      rw [this])
  exact_mod_cast h.1

/-- Claim C6 counterexample: with `src = "hello\nworld"` and fixes
`[{before:"hello"}, {quote:"world"}]`, the first checked field (`before` of the
first fix) yields a genuine match (exact substring at offset 0, i.e. line 1),
so first-success-wins predicts 1; the code returns 2 because `deriveLine`
discards any resolution equal to 1 (`if (ln > 1) return ln`). -/
theorem claim_C6_counterexample :
    deriveLine "hello\nworld".data
        [Fix.obj { before := some "hello".data }, Fix.obj { quote := some "world".data }] = 2
    ∧ indexOfSub "hello".data "hello\nworld".data = some 0
    ∧ findLineSmart "hello\nworld".data "hello".data = 1 := by
  decide

/-- Claim C6 (amended): when no fix supplies an explicit line number, the
quotation-bearing fields are checked in the fixed order before, quote,
original; the first field whose smart search resolves to a line strictly
greater than 1 determines the result, a field resolving to line 1 (a match at
line 1 or no match) is skipped, and if no field resolves above 1 the result
is 1.  Within the smart search, an exact substring match returns 1 plus the
number of newlines before the match start. -/
theorem claim_C6 (src needle : List Char) (fixes : List Fix) (i : Nat)
    (hfx : fixes ≠ [])
    (hnoexp : fixes.findSome? explicitLineVal = none)
    (hsrc : src ≠ []) (hneedle : needle ≠ [])
    (hidx : indexOfSub needle src = some i) :
    deriveLine src fixes =
      ((((([FKey.before, FKey.quote, FKey.original].flatMap
          (fun k => (fixes.filterMap (getKeyField k)).map (findLineSmart src))).find?
          (fun n => 1 < n)).getD 1 : Nat)) : Int)
    ∧ findLineSmart src needle = 1 + (src.take i).count '\n' := by
  constructor
  · unfold deriveLine
    rw [if_neg hfx, hnoexp]
    show ((keyScan src fixes [FKey.before, FKey.quote, FKey.original] : Nat) : Int) = _
    exact_mod_cast keyScan_eq_find? src fixes _
  · have hb : (src.isEmpty || needle.isEmpty) = false := by
      cases src with
      | nil => exact absurd rfl hsrc
      | cons a as =>
        cases needle with
        | nil => exact absurd rfl hneedle
        | cons b bs => rfl
    unfold findLineSmart
    rw [hb, if_neg (by simp)]
    simp only [hidx]
    rw [if_neg (by rw [splitLines_length]; omega)]
    rw [splitLines_length]

/-- Witness for claim C6 at a concrete input: `{quote:"world"}` in
`"hello\nworld"` resolves through the first-above-1 scan, and the exact
substring strategy maps offset 6 to line 2. -/
theorem claim_C6_witness :
    deriveLine "hello\nworld".data [Fix.obj { quote := some "world".data }] =
      ((((([FKey.before, FKey.quote, FKey.original].flatMap
          (fun k => ((([Fix.obj { quote := some "world".data }]).filterMap
            (getKeyField k)).map (findLineSmart "hello\nworld".data)))).find?
          (fun n => 1 < n)).getD 1 : Nat)) : Int)
    ∧ findLineSmart "hello\nworld".data "world".data =
        1 + ("hello\nworld".data.take 6).count '\n' :=
  claim_C6 "hello\nworld".data "world".data [Fix.obj { quote := some "world".data }] 6
    (by decide) (by decide) (by decide) (by decide) (by decide)

/-- Claim C7 counterexample: the fixes list `[{line: 0.5}]` is accepted by the
explicit-line scan (`Number.isFinite(0.5) && 0.5 > 0`) and
`Math.floor(0.5) = 0` is returned, so `deriveLine` can return a value below
1. -/
theorem claim_C7_counterexample :
    deriveLine "AAA".data [Fix.obj { line := JsLine.fin (1/2) }] = 0 := by
  have h : ([Fix.obj { line := JsLine.fin (1/2) }] : List Fix).findSome?
      explicitLineVal = some (1/2 : ℚ) := by
    rw [List.findSome?_cons]
    have : explicitLineVal (Fix.obj { line := JsLine.fin (1/2) }) = some (1/2 : ℚ) := by
      simp only [explicitLineVal]
      rw [if_pos (by norm_num)]
    rw [this]
  unfold deriveLine
  rw [if_neg (by simp), h]
  rw [show ((1 : ℚ)/2) = (0.5 : ℚ) by norm_num]
  norm_num [Int.floor_eq_iff]

/-- Claim C7 (amended): `deriveLine` is a total function (it always
terminates) and always returns an integer `≥ 0`; the result is `≥ 1` unless
the accepted explicit line value lies in the open interval (0,1), where
flooring produces 0; and with no match anywhere the safe default 1 is
returned, e.g. on `("AAA", [{quote:"not present"}])`. -/
theorem claim_C7 (src : List Char) (fixes : List Fix) :
    0 ≤ deriveLine src fixes
    ∧ ((∀ q : ℚ, fixes.findSome? explicitLineVal = some q → 1 ≤ q) →
        1 ≤ deriveLine src fixes)
    ∧ deriveLine "AAA".data [Fix.obj { quote := some "not present".data }] = 1 := by
  refine ⟨?_, ?_, by decide⟩
  · unfold deriveLine
    split
    · omega
    · cases hf : fixes.findSome? explicitLineVal with
      | none => exact Int.natCast_nonneg _
      | some q =>
        exact Int.floor_nonneg.mpr (le_of_lt (findSome?_explicit_pos fixes q hf))
  · intro hq
    unfold deriveLine
    split
    · omega
    · cases hf : fixes.findSome? explicitLineVal with
      | none =>
        show (1 : Int) ≤ ((keyScan src fixes [FKey.before, FKey.quote, FKey.original] : Nat) : Int)
        exact_mod_cast one_le_keyScan src fixes _
      | some q =>
        exact Int.le_floor.mpr (by exact_mod_cast hq q hf)

/-- Witness for claim C7: both bounds evaluated at a concrete input with an
integer explicit line. -/
theorem claim_C7_witness :
    0 ≤ deriveLine "AAA".data [Fix.obj { line := JsLine.fin 7 }]
    ∧ 1 ≤ deriveLine "AAA".data [Fix.obj { line := JsLine.fin 7 }] := by
  have h := claim_C7 "AAA".data [Fix.obj { line := JsLine.fin 7 }]
  refine ⟨h.1, h.2.1 ?_⟩
  intro q hq
  rw [List.findSome?_cons] at hq
  have he : explicitLineVal (Fix.obj { line := JsLine.fin 7 }) = some (7 : ℚ) := by
    simp only [explicitLineVal]
    rw [if_pos (by norm_num)]
  rw [he] at hq
  cases hq
  norm_num

/-- Claim C10: the explicit-line scan covers the whole fixes array before any
quotation field is tried: whenever it accepts a value `q` (any finite number
above 0, in fix-array order), the result is `floor q`, independent of the
source text and of any quotations in earlier entries (the result equals the
result on an empty source, where no quotation could match). -/
theorem claim_C10 (src : List Char) (fixes : List Fix) (q : ℚ)
    (h : fixes.findSome? explicitLineVal = some q) :
    deriveLine src fixes = Int.floor q
    ∧ deriveLine src fixes = deriveLine [] fixes := by
  have hne : fixes ≠ [] := by
    rintro rfl
    simp [List.findSome?] at h
  have hval : deriveLine src fixes = Int.floor q := by
    unfold deriveLine
    rw [if_neg hne, h]
  have hval2 : deriveLine [] fixes = Int.floor q := by
    unfold deriveLine
    rw [if_neg hne, h]
  exact ⟨hval, hval.trans hval2.symm⟩

/-! ## Lemmas about `callModel` -/

theorem callModelGo_ok (responses : Nat → CallOutcome) (jitter : Nat → ℚ)
    (m a : Nat) (c : String) (hr : responses a = .ok c) :
    callModelGo responses jitter m a = ⟨.ok c, a + 1, []⟩ := by
  rw [callModelGo.eq_def, hr]

theorem callModelGo_fatal (responses : Nat → CallOutcome) (jitter : Nat → ℚ)
    (m a : Nat) (e : ApiErr) (hr : responses a = .fail e)
    (hf : isFatalErr e.status e.eType = true) :
    callModelGo responses jitter m a =
      ⟨.error ⟨true, "INSUFFICIENT_QUOTA"⟩, a + 1, []⟩ := by
  rw [callModelGo.eq_def, hr]
  simp only [hf, if_true]

theorem callModelGo_retry (responses : Nat → CallOutcome) (jitter : Nat → ℚ)
    (m a : Nat) (e : ApiErr) (hr : responses a = .fail e)
    (hnf : isFatalErr e.status e.eType = false)
    (ht : isTransientStatus e.status = true) (hlt : a + 1 < m) :
    callModelGo responses jitter m a =
      ⟨(callModelGo responses jitter m (a + 1)).result,
       (callModelGo responses jitter m (a + 1)).calls,
       (300 * 2 ^ a + jitter (a + 1)) ::
         (callModelGo responses jitter m (a + 1)).sleeps⟩ := by
  rw [callModelGo.eq_def, hr]
  simp only [hnf, Bool.false_eq_true, if_false]
  rw [dif_pos ⟨ht, hlt⟩]

theorem callModelGo_stop (responses : Nat → CallOutcome) (jitter : Nat → ℚ)
    (m a : Nat) (e : ApiErr) (hr : responses a = .fail e)
    (hnf : isFatalErr e.status e.eType = false)
    (hstop : ¬(isTransientStatus e.status = true ∧ a + 1 < m)) :
    callModelGo responses jitter m a = ⟨.error ⟨false, e.message⟩, a + 1, []⟩ := by
  rw [callModelGo.eq_def, hr]
  simp only [hnf, Bool.false_eq_true, if_false]
  rw [dif_neg hstop]

theorem callModelGo_calls_le (responses : Nat → CallOutcome) (jitter : Nat → ℚ)
    (m a : Nat) (h : a < m) : (callModelGo responses jitter m a).calls ≤ m := by
  suffices H : ∀ d a : Nat, m - a ≤ d → a < m →
      (callModelGo responses jitter m a).calls ≤ m from H (m - a) a (le_refl _) h
  intro d
  induction d with
  | zero =>
    intro a hd ha
    omega
  | succ d ih =>
    intro a hd ha
    cases hr : responses a with
    | ok c =>
      rw [callModelGo_ok responses jitter m a c hr]
      exact ha
    | fail e =>
      by_cases hf : isFatalErr e.status e.eType = true
      · rw [callModelGo_fatal responses jitter m a e hr hf]
        exact ha
      · by_cases hret : isTransientStatus e.status = true ∧ a + 1 < m
        · rw [callModelGo_retry responses jitter m a e hr
            (Bool.not_eq_true _ ▸ hf) hret.1 hret.2]
          exact ih (a + 1) (by omega) hret.2
        · rw [callModelGo_stop responses jitter m a e hr
            (Bool.not_eq_true _ ▸ hf) hret]
          exact ha

theorem callModelGo_calls_ge (responses : Nat → CallOutcome) (jitter : Nat → ℚ)
    (m a : Nat) : a + 1 ≤ (callModelGo responses jitter m a).calls := by
  suffices H : ∀ d a : Nat, m - a ≤ d →
      a + 1 ≤ (callModelGo responses jitter m a).calls from H (m - a) a (le_refl _)
  intro d
  induction d with
  | zero =>
    intro a hd
    cases hr : responses a with
    | ok c =>
      rw [callModelGo_ok responses jitter m a c hr]
    | fail e =>
      by_cases hf : isFatalErr e.status e.eType = true
      · rw [callModelGo_fatal responses jitter m a e hr hf]
      · by_cases hret : isTransientStatus e.status = true ∧ a + 1 < m
        · have := hret.2
          omega
        · rw [callModelGo_stop responses jitter m a e hr
            (Bool.not_eq_true _ ▸ hf) hret]
  | succ d ih =>
    intro a hd
    cases hr : responses a with
    | ok c =>
      rw [callModelGo_ok responses jitter m a c hr]
    | fail e =>
      by_cases hf : isFatalErr e.status e.eType = true
      · rw [callModelGo_fatal responses jitter m a e hr hf]
      · by_cases hret : isTransientStatus e.status = true ∧ a + 1 < m
        · rw [callModelGo_retry responses jitter m a e hr
            (Bool.not_eq_true _ ▸ hf) hret.1 hret.2]
          have h2 := ih (a + 1) (by omega)
          show a + 1 ≤ (callModelGo responses jitter m (a + 1)).calls
          omega
        · rw [callModelGo_stop responses jitter m a e hr
            (Bool.not_eq_true _ ▸ hf) hret]

theorem callModelGo_sleeps (responses : Nat → CallOutcome) (jitter : Nat → ℚ)
    (m a : Nat) :
    (callModelGo responses jitter m a).sleeps =
      (List.range ((callModelGo responses jitter m a).calls - 1 - a)).map
        (fun i => 300 * 2 ^ (a + i) + jitter (a + i + 1)) := by
  suffices H : ∀ d a : Nat, m - a ≤ d →
      (callModelGo responses jitter m a).sleeps =
        (List.range ((callModelGo responses jitter m a).calls - 1 - a)).map
          (fun i => 300 * 2 ^ (a + i) + jitter (a + i + 1)) from H (m - a) a (le_refl _)
  intro d
  induction d with
  | zero =>
    intro a hd
    cases hr : responses a with
    | ok c =>
      rw [callModelGo_ok responses jitter m a c hr]
      simp
    | fail e =>
      by_cases hf : isFatalErr e.status e.eType = true
      · rw [callModelGo_fatal responses jitter m a e hr hf]
        simp
      · by_cases hret : isTransientStatus e.status = true ∧ a + 1 < m
        · have := hret.2
          omega
        · rw [callModelGo_stop responses jitter m a e hr
            (Bool.not_eq_true _ ▸ hf) hret]
          simp
  | succ d ih =>
    intro a hd
    cases hr : responses a with
    | ok c =>
      rw [callModelGo_ok responses jitter m a c hr]
      simp
    | fail e =>
      by_cases hf : isFatalErr e.status e.eType = true
      · rw [callModelGo_fatal responses jitter m a e hr hf]
        simp
      · by_cases hret : isTransientStatus e.status = true ∧ a + 1 < m
        · rw [callModelGo_retry responses jitter m a e hr
            (Bool.not_eq_true _ ▸ hf) hret.1 hret.2]
          have hge := callModelGo_calls_ge responses jitter m (a + 1)
          have hi := ih (a + 1) (by omega)
          show (300 * 2 ^ a + jitter (a + 1)) ::
              (callModelGo responses jitter m (a + 1)).sleeps =
            (List.range ((callModelGo responses jitter m (a + 1)).calls - 1 - a)).map
              (fun i => 300 * 2 ^ (a + i) + jitter (a + i + 1))
          rw [hi]
          rw [show (callModelGo responses jitter m (a + 1)).calls - 1 - a =
              ((callModelGo responses jitter m (a + 1)).calls - 1 - (a + 1)) + 1
            from by omega]
          rw [List.range_succ_eq_map, List.map_cons, List.map_map]
          refine congrArg₂ List.cons (by norm_num) ?_
          refine List.map_congr_left ?_
          intro i _
          simp only [Function.comp_apply, Nat.succ_eq_add_one]
          rw [show a + (i + 1) = a + 1 + i from by omega]
        · rw [callModelGo_stop responses jitter m a e hr
            (Bool.not_eq_true _ ▸ hf) hret]
          simp

theorem callModelGo_success (responses : Nat → CallOutcome) (jitter : Nat → ℚ)
    (m : Nat) (c : String) (k : Nat) : ∀ a : Nat, a + k < m → responses (a + k) = .ok c →
    (∀ i : Nat, a ≤ i → i < a + k → ∃ e, responses i = .fail e ∧
      isFatalErr e.status e.eType = false ∧ isTransientStatus e.status = true) →
    (callModelGo responses jitter m a).result = .ok c ∧
      (callModelGo responses jitter m a).calls = a + k + 1 := by
  induction k with
  | zero =>
    intro a _ hok _
    rw [callModelGo_ok responses jitter m a c (by simpa using hok)]
    simp
  | succ k ih =>
    intro a hlt hok hfail
    obtain ⟨e, hre, hnf, htr⟩ := hfail a (le_refl a) (by omega)
    rw [callModelGo_retry responses jitter m a e hre hnf htr (by omega)]
    have := ih (a + 1) (by omega) (by rw [show a + 1 + k = a + (k + 1) from by omega]; exact hok)
      (fun i hi1 hi2 => hfail i (by omega) (by omega))
    simpa [show a + 1 + k = a + (k + 1) from by omega] using this

theorem callModelGo_fail_after (responses : Nat → CallOutcome) (jitter : Nat → ℚ)
    (m : Nat) (e : ApiErr) (k : Nat) : ∀ a : Nat, a + k < m → responses (a + k) = .fail e →
    isFatalErr e.status e.eType = false → isTransientStatus e.status = false →
    (∀ i : Nat, a ≤ i → i < a + k → ∃ e', responses i = .fail e' ∧
      isFatalErr e'.status e'.eType = false ∧ isTransientStatus e'.status = true) →
    (callModelGo responses jitter m a).result = .error ⟨false, e.message⟩ ∧
      (callModelGo responses jitter m a).calls = a + k + 1 := by
  induction k with
  | zero =>
    intro a _ hfe hnf hnt _
    rw [callModelGo_stop responses jitter m a e (by simpa using hfe) hnf
      (by simp [hnt])]
    simp
  | succ k ih =>
    intro a hlt hfe hnf hnt hfail
    obtain ⟨e', hre, hnf', htr'⟩ := hfail a (le_refl a) (by omega)
    rw [callModelGo_retry responses jitter m a e' hre hnf' htr' (by omega)]
    have := ih (a + 1) (by omega)
      (by rw [show a + 1 + k = a + (k + 1) from by omega]; exact hfe) hnf hnt
      (fun i hi1 hi2 => hfail i (by omega) (by omega))
    simpa [show a + 1 + k = a + (k + 1) from by omega] using this

/-! ## Claim theorems: OracleClient retry policy (C2, C3) -/

/-- Claim C2: at most 3 attempts per oracle call; every backoff sleep taken
before the (i+2)-th attempt equals `300 * 2 ^ i` plus the jitter drawn for
that retry (which the code samples from [0, 200)); a run of transient
(429 / ≥500, non-fatal) failures shorter than the budget followed by a
success yields the successful result, with one call per attempt; exhausting
the 3 attempts on transient errors makes the call fail with the last error;
and a non-transient (non-fatal) error at any attempt — first or after any
run of transient retries — fails immediately with that error's message. -/
theorem claim_C2 (responses : Nat → CallOutcome) (jitter : Nat → ℚ) :
    (callModel responses jitter).calls ≤ 3
    ∧ (callModel responses jitter).sleeps =
        (List.range ((callModel responses jitter).calls - 1)).map
          (fun i => 300 * 2 ^ i + jitter (i + 1))
    ∧ (∀ (c : String) (k : Nat), k < 3 → responses k = .ok c →
        (∀ i : Nat, i < k → ∃ e, responses i = .fail e ∧
          isFatalErr e.status e.eType = false ∧ isTransientStatus e.status = true) →
        (callModel responses jitter).result = .ok c ∧
          (callModel responses jitter).calls = k + 1)
    ∧ (∀ e0 e1 e2 : ApiErr,
        responses 0 = .fail e0 → responses 1 = .fail e1 → responses 2 = .fail e2 →
        (∀ e ∈ [e0, e1, e2], isFatalErr e.status e.eType = false ∧
          isTransientStatus e.status = true) →
        (callModel responses jitter).result = .error ⟨false, e2.message⟩ ∧
          (callModel responses jitter).calls = 3)
    ∧ (∀ e : ApiErr, responses 0 = .fail e →
        isFatalErr e.status e.eType = false → isTransientStatus e.status = false →
        (callModel responses jitter).result = .error ⟨false, e.message⟩ ∧
          (callModel responses jitter).calls = 1)
    ∧ (∀ (k : Nat) (e : ApiErr), k < 3 → responses k = .fail e →
        isFatalErr e.status e.eType = false → isTransientStatus e.status = false →
        (∀ i : Nat, i < k → ∃ e', responses i = .fail e' ∧
          isFatalErr e'.status e'.eType = false ∧
          isTransientStatus e'.status = true) →
        (callModel responses jitter).result = .error ⟨false, e.message⟩ ∧
          (callModel responses jitter).calls = k + 1)
    ∧ ((∀ a : Nat, 0 ≤ jitter a ∧ jitter a < 200) →
        ∀ s ∈ (callModel responses jitter).sleeps,
          ∃ i : Nat, s = 300 * 2 ^ i + jitter (i + 1) ∧
            300 * 2 ^ i ≤ s ∧ s < 300 * 2 ^ i + 200) := by
  refine ⟨?_, ?_, ?_, ?_, ?_, ?_, ?_⟩
  · exact callModelGo_calls_le responses jitter 3 0 (by omega)
  · have h := callModelGo_sleeps responses jitter 3 0
    simpa using h
  · intro c k hk hok hfail
    have h := callModelGo_success responses jitter 3 c k 0 (by omega)
      (by simpa using hok) (fun i hi1 hi2 => hfail i (by omega))
    unfold callModel
    exact ⟨h.1, by rw [h.2]; omega⟩
  · intro e0 e1 e2 h0 h1 h2 hcl
    obtain ⟨hnf0, ht0⟩ := hcl e0 (by simp)
    obtain ⟨hnf1, ht1⟩ := hcl e1 (by simp)
    obtain ⟨hnf2, ht2⟩ := hcl e2 (by simp)
    unfold callModel
    rw [callModelGo_retry responses jitter 3 0 e0 h0 hnf0 ht0 (by omega)]
    rw [callModelGo_retry responses jitter 3 1 e1 h1 hnf1 ht1 (by omega)]
    rw [callModelGo_stop responses jitter 3 2 e2 h2 hnf2 (by omega)]
    exact ⟨rfl, rfl⟩
  · intro e h0 hnf hnt
    unfold callModel
    rw [callModelGo_stop responses jitter 3 0 e h0 hnf (by simp [hnt])]
    exact ⟨rfl, rfl⟩
  · intro k e hk hfe hnf hnt hfail
    have h := callModelGo_fail_after responses jitter 3 e k 0 (by omega)
      (by simpa using hfe) hnf hnt (fun i hi1 hi2 => hfail i (by omega))
    unfold callModel
    exact ⟨h.1, by rw [h.2]; omega⟩
  · intro hj s hs
    unfold callModel at hs
    rw [callModelGo_sleeps responses jitter 3 0] at hs
    obtain ⟨i, _, rfl⟩ := List.mem_map.mp hs
    refine ⟨0 + i, rfl, ?_, ?_⟩
    · have := (hj (0 + i + 1)).1
      linarith
    · have := (hj (0 + i + 1)).2
      linarith

/-- Witness for claim C2: one 429 failure followed by a success returns the
success on the second call; one 429 failure followed by a 400 (non-transient)
failure fails with the 400 error's message after exactly two calls. -/
theorem claim_C2_witness :
    (callModel
      (fun n => if n = 0 then CallOutcome.fail ⟨some 429, none, "rate"⟩
                else CallOutcome.ok "Y") (fun _ => 0)).result = Except.ok "Y"
    ∧ (callModel
      (fun n => if n = 0 then CallOutcome.fail ⟨some 429, none, "rate"⟩
                else CallOutcome.ok "Y") (fun _ => 0)).calls = 1 + 1
    ∧ (callModel
      (fun n => if n = 0 then CallOutcome.fail ⟨some 429, none, "rate"⟩
                else CallOutcome.fail ⟨some 400, none, "bad"⟩) (fun _ => 0)).result =
        Except.error ⟨false, "bad"⟩
    ∧ (callModel
      (fun n => if n = 0 then CallOutcome.fail ⟨some 429, none, "rate"⟩
                else CallOutcome.fail ⟨some 400, none, "bad"⟩) (fun _ => 0)).calls =
        1 + 1 := by
  have h := claim_C2
    (fun n => if n = 0 then CallOutcome.fail ⟨some 429, none, "rate"⟩
              else CallOutcome.ok "Y") (fun _ => 0)
  have hsucc := h.2.2.1 "Y" 1 (by omega) rfl (fun i hi => by
    have hi0 : i = 0 := by omega
    subst hi0
    exact ⟨⟨some 429, none, "rate"⟩, rfl, rfl, rfl⟩)
  have h2 := claim_C2
    (fun n => if n = 0 then CallOutcome.fail ⟨some 429, none, "rate"⟩
              else CallOutcome.fail ⟨some 400, none, "bad"⟩) (fun _ => 0)
  have hmix := h2.2.2.2.2.2.1 1 ⟨some 400, none, "bad"⟩ (by omega) rfl rfl rfl
    (fun i hi => by
      have hi0 : i = 0 := by omega
      subst hi0
      exact ⟨⟨some 429, none, "rate"⟩, rfl, rfl, rfl⟩)
  exact ⟨hsucc.1, hsucc.2, hmix.1, hmix.2⟩

/-- Claim C3: a fatal first attempt (type `insufficient_quota` or status 402)
makes exactly 1 call, sleeps never, throws the tagged quota error, and the
resulting judgment is failing with the distinct rationale containing
"insufficient quota"; any other thrown failure yields the generic rationale
`LLM call failed: <message>`. -/
theorem claim_C3 (responses : Nat → CallOutcome) (jitter : Nat → ℚ) (e : ApiErr)
    (parse : String → Except String RuleResult) (file content : String) (rule : RuleSpec)
    (hr : responses 0 = .fail e)
    (hf : isFatalErr e.status e.eType = true) :
    (callModel responses jitter).calls = 1
    ∧ (callModel responses jitter).sleeps = []
    ∧ (callModel responses jitter).result =
        .error ⟨true, "INSUFFICIENT_QUOTA"⟩
    ∧ lintTask (fun _ _ _ => (callModel responses jitter).result)
        parse file content rule =
        { id := rule.id, pass := false,
          rationale := "LLM call failed: insufficient quota.",
          suggested_fixes := ["Verify API key/org; try again."] }
    ∧ (∃ pre post : String,
        "LLM call failed: insufficient quota." = pre ++ "insufficient quota" ++ post)
    ∧ (∀ t : ThrownErr, t.insufficientQuota = false →
        (lintTask (fun _ _ _ => Except.error t) parse file content rule).rationale =
          "LLM call failed: " ++ t.message) := by
  have htr : callModel responses jitter =
      ⟨.error ⟨true, "INSUFFICIENT_QUOTA"⟩, 0 + 1, []⟩ :=
    callModelGo_fatal responses jitter 3 0 e hr hf
  refine ⟨by rw [htr], by rw [htr], by rw [htr], ?_, ⟨"LLM call failed: ", ".", by decide⟩, ?_⟩
  · rw [htr]
    rfl
  · intro t ht
    simp [lintTask, ht]

/-- Witness for claim C3: a 402 response produces the quota judgment in one
call. -/
theorem claim_C3_witness :
    (callModel (fun _ => CallOutcome.fail ⟨some 402, none, "quota"⟩) (fun _ => 0)).calls = 1
    ∧ lintTask
        (fun _ _ _ => (callModel (fun _ => CallOutcome.fail ⟨some 402, none, "quota"⟩)
          (fun _ => 0)).result)
        (fun _ => Except.error "unused") "f.md" "content" ⟨"rule1", "md"⟩ =
        { id := "rule1", pass := false,
          rationale := "LLM call failed: insufficient quota.",
          suggested_fixes := ["Verify API key/org; try again."] } := by
  have h := claim_C3 (fun _ => CallOutcome.fail ⟨some 402, none, "quota"⟩) (fun _ => 0)
    ⟨some 402, none, "quota"⟩ (fun _ => Except.error "unused") "f.md" "content"
    ⟨"rule1", "md"⟩ rfl rfl
  exact ⟨h.1, h.2.2.2.1⟩

/-! ## Lemmas about the pipeline -/

theorem lintTask_id (oracle : String → String → RuleSpec → Except ThrownErr String)
    (parse : String → Except String RuleResult) (file content : String)
    (rule : RuleSpec) : (lintTask oracle parse file content rule).id = rule.id := by
  cases ho : oracle file content rule with
  | ok json =>
    cases hp : parse json with
    | ok parsed => simp [lintTask, ho, hp]
    | error m => simp [lintTask, ho, hp]
  | error e => simp [lintTask, ho]

theorem overall_pass_eq_all (l : List RuleResult) :
    ((l.length - (l.filter (fun r => r.pass)).length) == 0) =
      l.all (fun r => r.pass) := by
  apply Bool.eq_iff_iff.mpr
  rw [beq_iff_eq, List.all_eq_true]
  have hadd : l.length = (l.filter (fun r => r.pass)).length +
      (l.filter (fun r => !r.pass)).length :=
    @List.length_eq_length_filter_add _ l (fun r => r.pass)
  constructor
  · intro h r hr
    have h0 : (l.filter (fun r => !r.pass)).length = 0 := by omega
    have hnil : l.filter (fun r => !r.pass) = [] := List.length_eq_zero.mp h0
    have hmem := List.filter_eq_nil.mp hnil r hr
    simpa using hmem
  · intro h
    have hself : l.filter (fun r => r.pass) = l := List.filter_eq_self.mpr h
    rw [hself]
    omega

/-! ## Claim theorems: failure-as-data, forced rule id, aggregation (C4, C8, C9) -/

/-- Claim C4: no exception crosses the scheduler boundary — every task-level
failure becomes a failing judgment value (pass=false, a rationale describing
the failure, the generic remediation hint), both for a thrown oracle error
and for an unparseable oracle response; and a document whose processing
throws yields a synthetic result with `overall_pass = false` and a single
engine-error outcome, while the batch keeps one result per input document. -/
theorem claim_C4 (oracle : String → String → RuleSpec → Except ThrownErr String)
    (parse : String → Except String RuleResult) (file content json pm m : String)
    (rule : RuleSpec) (rules : List RuleSpec) (docs : List DocInput) (d : DocInput)
    (t : ThrownErr) (hp : parse json = .error pm) (hd : d.content = .error m) :
    lintTask (fun _ _ _ => Except.error t) parse file content rule =
      { id := rule.id, pass := false,
        rationale :=
          if t.insufficientQuota then "LLM call failed: insufficient quota."
          else "LLM call failed: " ++ t.message,
        suggested_fixes := ["Verify API key/org; try again."] }
    ∧ lintTask (fun _ _ _ => Except.ok json) parse file content rule =
      { id := rule.id, pass := false, rationale := "LLM call failed: " ++ pm,
        suggested_fixes := ["Verify API key/org; try again."] }
    ∧ fileTaskModel oracle parse rules d =
      { file := d.path, overall_pass := false,
        rules := [{ id := "engine_error", pass := false,
                    rationale := "Engine error: " ++ m, suggested_fixes := [] }],
        source := none }
    ∧ (mainModel oracle parse rules docs).length = docs.length := by
  refine ⟨rfl, ?_, ?_, ?_⟩
  · simp [lintTask, hp]
  · simp [fileTaskModel, hd]
  · unfold mainModel
    exact List.length_map docs _

/-- Witness for claim C4 at concrete inputs: a thrown error, a parse failure
and an unreadable document each become data. -/
theorem claim_C4_witness :
    lintTask (fun _ _ _ => Except.error ⟨false, "boom"⟩)
        (fun _ => Except.error "bad json") "f.md" "c" ⟨"r1", "md"⟩ =
      { id := "r1", pass := false,
        rationale :=
          if (false : Bool) then "LLM call failed: insufficient quota."
          else "LLM call failed: " ++ "boom",
        suggested_fixes := ["Verify API key/org; try again."] }
    ∧ lintTask (fun _ _ _ => Except.ok "x")
        (fun _ => Except.error "bad json") "f.md" "c" ⟨"r1", "md"⟩ =
      { id := "r1", pass := false, rationale := "LLM call failed: " ++ "bad json",
        suggested_fixes := ["Verify API key/org; try again."] }
    ∧ fileTaskModel (fun _ _ _ => Except.ok "x") (fun _ => Except.error "bad json")
        [⟨"r1", "md"⟩] ⟨"doc.md", Except.error "ENOENT"⟩ =
      { file := "doc.md", overall_pass := false,
        rules := [{ id := "engine_error", pass := false,
                    rationale := "Engine error: " ++ "ENOENT", suggested_fixes := [] }],
        source := none }
    ∧ (mainModel (fun _ _ _ => Except.ok "x") (fun _ => Except.error "bad json")
        [⟨"r1", "md"⟩] [⟨"doc.md", Except.error "ENOENT"⟩]).length =
        ([⟨"doc.md", Except.error "ENOENT"⟩] : List DocInput).length :=
  claim_C4 (fun _ _ _ => Except.ok "x") (fun _ => Except.error "bad json")
    "f.md" "c" "x" "bad json" "ENOENT" ⟨"r1", "md"⟩ [⟨"r1", "md"⟩]
    [⟨"doc.md", Except.error "ENOENT"⟩] ⟨"doc.md", Except.error "ENOENT"⟩
    ⟨false, "boom"⟩ rfl rfl

/-- Claim C8: the stored judgment's rule id is always forced to the id of the
rule that produced the call — for every oracle outcome and every parse result
(including a parsed response with an altered or missing id), and lifted to a
whole document's outcome list. -/
theorem claim_C8 (oracle : String → String → RuleSpec → Except ThrownErr String)
    (parse : String → Except String RuleResult) (file content c : String)
    (rule : RuleSpec) (rules : List RuleSpec) (d : DocInput)
    (hd : d.content = .ok c) :
    (lintTask oracle parse file content rule).id = rule.id
    ∧ (fileTaskModel oracle parse rules d).rules.map (fun r => r.id) =
        rules.map (fun r => r.id) := by
  refine ⟨lintTask_id oracle parse file content rule, ?_⟩
  unfold fileTaskModel
  rw [hd]
  show (rules.map (lintTask oracle parse d.path c)).map (fun r => r.id) =
    rules.map (fun r => r.id)
  rw [List.map_map]
  exact List.map_congr_left (fun r _ => lintTask_id oracle parse d.path c r)

/-- Witness for claim C8: the oracle echoes a wrong id (`"bogus"`) and the
output still carries the rule's id. -/
theorem claim_C8_witness :
    (lintTask (fun _ _ _ => Except.ok "j")
      (fun _ => Except.ok ⟨"bogus", true, "r", []⟩) "f.md" "c" ⟨"rule1", "md"⟩).id =
      ("rule1" : String)
    ∧ (fileTaskModel (fun _ _ _ => Except.ok "j")
        (fun _ => Except.ok ⟨"bogus", true, "r", []⟩) [⟨"rule1", "md"⟩]
        ⟨"doc.md", Except.ok "c"⟩).rules.map (fun r => r.id) =
        ([⟨"rule1", "md"⟩] : List RuleSpec).map (fun r => r.id) :=
  claim_C8 (fun _ _ _ => Except.ok "j") (fun _ => Except.ok ⟨"bogus", true, "r", []⟩)
    "f.md" "c" "c" ⟨"rule1", "md"⟩ [⟨"rule1", "md"⟩] ⟨"doc.md", Except.ok "c"⟩ rfl

/-- Claim C9: the summary satisfies `checked = number of document results`,
`passed = count of overall passes`, `failed = checked - passed`; and every
document result produced by the run has `overall_pass` equal to the
conjunction of its outcomes' pass flags. -/
theorem claim_C9 (modelName : String) (out : List FileResult)
    (oracle : String → String → RuleSpec → Except ThrownErr String)
    (parse : String → Except String RuleResult)
    (rules : List RuleSpec) (docs : List DocInput) :
    (summaryModel modelName out).checked = out.length
    ∧ (summaryModel modelName out).passed =
        (out.filter (fun r => r.overall_pass)).length
    ∧ (summaryModel modelName out).failed =
        (summaryModel modelName out).checked - (summaryModel modelName out).passed
    ∧ ∀ fr ∈ mainModel oracle parse rules docs,
        fr.overall_pass = fr.rules.all (fun r => r.pass) := by
  refine ⟨rfl, rfl, ?_, ?_⟩
  · show (out.filter (fun r => !r.overall_pass)).length =
      out.length - (out.filter (fun r => r.overall_pass)).length
    have hadd : out.length = (out.filter (fun r => r.overall_pass)).length +
        (out.filter (fun r => !r.overall_pass)).length :=
      @List.length_eq_length_filter_add _ out (fun r => r.overall_pass)
    omega
  · intro fr hfr
    obtain ⟨d, _, rfl⟩ := List.mem_map.mp hfr
    unfold fileTaskModel
    cases hd : d.content with
    | error m => rfl
    | ok c =>
      show ((rules.map (lintTask oracle parse d.path c)).length -
          ((rules.map (lintTask oracle parse d.path c)).filter
            (fun r => r.pass)).length == 0) =
        (rules.map (lintTask oracle parse d.path c)).all (fun r => r.pass)
      exact overall_pass_eq_all _

/-- Witness for claim C9 at a concrete run: one passing and one failing
document. -/
theorem claim_C9_witness :
    (summaryModel "gpt-5"
        [⟨"a.md", true, [⟨"r1", true, "", []⟩], some "x"⟩,
         ⟨"b.md", false, [⟨"r1", false, "bad", []⟩], some "y"⟩]).checked =
      ([⟨"a.md", true, [⟨"r1", true, "", []⟩], some "x"⟩,
        ⟨"b.md", false, [⟨"r1", false, "bad", []⟩], some "y"⟩] : List FileResult).length
    ∧ (summaryModel "gpt-5"
        [⟨"a.md", true, [⟨"r1", true, "", []⟩], some "x"⟩,
         ⟨"b.md", false, [⟨"r1", false, "bad", []⟩], some "y"⟩]).failed =
        (summaryModel "gpt-5"
          [⟨"a.md", true, [⟨"r1", true, "", []⟩], some "x"⟩,
           ⟨"b.md", false, [⟨"r1", false, "bad", []⟩], some "y"⟩]).checked -
          (summaryModel "gpt-5"
            [⟨"a.md", true, [⟨"r1", true, "", []⟩], some "x"⟩,
             ⟨"b.md", false, [⟨"r1", false, "bad", []⟩], some "y"⟩]).passed
    ∧ ∀ fr ∈ mainModel (fun _ _ _ => Except.ok "j")
          (fun _ => Except.ok ⟨"r1", true, "", []⟩) [⟨"r1", "md"⟩]
          [⟨"a.md", Except.ok "x"⟩],
        fr.overall_pass = fr.rules.all (fun r => r.pass) := by
  have h := claim_C9 "gpt-5"
    [⟨"a.md", true, [⟨"r1", true, "", []⟩], some "x"⟩,
     ⟨"b.md", false, [⟨"r1", false, "bad", []⟩], some "y"⟩]
    (fun _ _ _ => Except.ok "j") (fun _ => Except.ok ⟨"r1", true, "", []⟩)
    [⟨"r1", "md"⟩] [⟨"a.md", Except.ok "x"⟩]
  exact ⟨h.1, h.2.2.1, h.2.2.2⟩

/-! ## Lemmas about the pool -/

theorem getElem?_set_self_of_lt {β : Type _} (l : List β) (i : Nat) (a : β)
    (h : i < l.length) : (l.set i a)[i]? = some a := by
  rw [List.getElem?_set]
  simp [h]

theorem poolInv_init (tasks : List α) (limit : Nat) :
    PoolInv tasks (min limit tasks.length) (initPool tasks limit) := by
  constructor
  · exact List.length_replicate _ _
  · exact List.length_replicate _ _
  · intro i hi
    refine Or.inr ⟨?_, Or.inl (Nat.zero_le i)⟩
    show (List.replicate tasks.length (none : Option α))[i]? = some none
    rw [List.getElem?_replicate, if_pos hi]
  · intro w i hw
    exfalso
    rw [show (initPool tasks limit).workers =
        List.replicate (min limit tasks.length) WStatus.idle from rfl,
      List.getElem?_replicate] at hw
    split at hw
    · simp at hw
    · simp at hw
  · intro w hw
    exfalso
    rw [show (initPool tasks limit).workers =
        List.replicate (min limit tasks.length) WStatus.idle from rfl,
      List.getElem?_replicate] at hw
    split at hw
    · simp at hw
    · simp at hw
  · intro c hc
    cases hc
  · exact List.Pairwise.nil

theorem poolInv_step (tasks : List α) (k : Nat) (s s' : PoolState α)
    (hs : PoolInv tasks k s) (hstep : PoolStep tasks s s') : PoolInv tasks k s' := by
  cases hstep with
  | claimTask w hw hlt =>
    have hwlt : w < s.workers.length := (List.getElem?_eq_some_iff.mp hw).1
    constructor
    · rw [List.length_set]
      exact hs.wlen
    · exact hs.rlen
    · intro i hi
      rcases hs.resFill i hi with hfill | ⟨hnone, hrest⟩
      · exact Or.inl hfill
      · refine Or.inr ⟨hnone, ?_⟩
        rcases hrest with hcur | ⟨w', hw'⟩
        · rcases Nat.eq_or_lt_of_le hcur with heq | hlt2
          · refine Or.inr ⟨w, ?_⟩
            rw [← heq]
            exact getElem?_set_self_of_lt _ _ _ hwlt
          · exact Or.inl hlt2
        · have hne : w ≠ w' := by
            intro he
            rw [← he, hw] at hw'
            cases hw'
          refine Or.inr ⟨w', ?_⟩
          rw [List.getElem?_set_ne hne]
          exact hw'
    · intro w0 i0 h0
      by_cases he : w = w0
      · subst he
        rw [getElem?_set_self_of_lt _ _ _ hwlt] at h0
        cases h0
        exact hlt
      · rw [List.getElem?_set_ne he] at h0
        exact hs.runLt w0 i0 h0
    · intro w0 h0
      by_cases he : w = w0
      · subst he
        rw [getElem?_set_self_of_lt _ _ _ hwlt] at h0
        cases h0
      · rw [List.getElem?_set_ne he] at h0
        have := hs.doneCur w0 h0
        show tasks.length < s.cursor + 1
        omega
    · intro c hc
      show c < s.cursor + 1
      rcases List.mem_append.mp hc with hc1 | hc2
      · have := hs.claimsLt c hc1
        omega
      · rw [List.mem_singleton] at hc2
        omega
    · rw [List.pairwise_append]
      refine ⟨hs.claimsSorted, List.pairwise_singleton _ _, ?_⟩
      intro a ha b hb
      rw [List.mem_singleton] at hb
      subst hb
      exact hs.claimsLt a ha
  | claimExhausted w hw hge =>
    have hwlt : w < s.workers.length := (List.getElem?_eq_some_iff.mp hw).1
    constructor
    · rw [List.length_set]
      exact hs.wlen
    · exact hs.rlen
    · intro i hi
      rcases hs.resFill i hi with hfill | ⟨hnone, hrest⟩
      · exact Or.inl hfill
      · refine Or.inr ⟨hnone, ?_⟩
        rcases hrest with hcur | ⟨w', hw'⟩
        · exfalso
          omega
        · have hne : w ≠ w' := by
            intro he
            rw [← he, hw] at hw'
            cases hw'
          refine Or.inr ⟨w', ?_⟩
          rw [List.getElem?_set_ne hne]
          exact hw'
    · intro w0 i0 h0
      by_cases he : w = w0
      · subst he
        rw [getElem?_set_self_of_lt _ _ _ hwlt] at h0
        cases h0
      · rw [List.getElem?_set_ne he] at h0
        exact hs.runLt w0 i0 h0
    · intro w0 h0
      show tasks.length < s.cursor + 1
      omega
    · intro c hc
      show c < s.cursor + 1
      have := hs.claimsLt c hc
      omega
    · exact hs.claimsSorted
  | finishTask w idx hw =>
    have hwlt : w < s.workers.length := (List.getElem?_eq_some_iff.mp hw).1
    have hidx : idx < tasks.length := hs.runLt w idx hw
    have hidxr : idx < s.results.length := by
      rw [hs.rlen]
      exact hidx
    constructor
    · rw [List.length_set]
      exact hs.wlen
    · rw [List.length_set]
      exact hs.rlen
    · intro i hi
      by_cases he : idx = i
      · subst he
        exact Or.inl (getElem?_set_self_of_lt _ _ _ hidxr)
      · rw [List.getElem?_set_ne he]
        rcases hs.resFill i hi with hfill | ⟨hnone, hrest⟩
        · exact Or.inl hfill
        · refine Or.inr ⟨hnone, ?_⟩
          rcases hrest with hcur | ⟨w', hw'⟩
          · exact Or.inl hcur
          · have hne : w ≠ w' := by
              intro he2
              rw [← he2, hw] at hw'
              cases hw'
              exact he rfl
            refine Or.inr ⟨w', ?_⟩
            rw [List.getElem?_set_ne hne]
            exact hw'
    · intro w0 i0 h0
      by_cases he : w = w0
      · subst he
        rw [getElem?_set_self_of_lt _ _ _ hwlt] at h0
        cases h0
      · rw [List.getElem?_set_ne he] at h0
        exact hs.runLt w0 i0 h0
    · intro w0 h0
      by_cases he : w = w0
      · subst he
        rw [getElem?_set_self_of_lt _ _ _ hwlt] at h0
        cases h0
      · rw [List.getElem?_set_ne he] at h0
        exact hs.doneCur w0 h0
    · exact hs.claimsLt
    · exact hs.claimsSorted

theorem poolInv_reach (tasks : List α) (limit : Nat) (s : PoolState α)
    (h : poolReach tasks limit s) :
    PoolInv tasks (min limit tasks.length) s := by
  induction h with
  | refl => exact poolInv_init tasks limit
  | tail _ hbc ih => exact poolInv_step tasks _ _ _ ih hbc

theorem mainModel_tasks_card
    (oracle : String → String → RuleSpec → Except ThrownErr String)
    (parse : String → Except String RuleResult)
    (rules : List RuleSpec) (docs : List (String × String)) :
    ((mainModel oracle parse rules (okDocs docs)).map (fun fr => fr.rules.length)).sum =
      docs.length * rules.length := by
  induction docs with
  | nil => simp [mainModel, okDocs]
  | cons d ds ih =>
    simp only [mainModel, okDocs, List.map_cons, List.sum_cons] at ih ⊢
    rw [ih]
    show (lintOneModel oracle parse d.1 d.2 rules).rules.length +
      ds.length * rules.length = (ds.length + 1) * rules.length
    show (rules.map (lintTask oracle parse d.1 d.2)).length +
      ds.length * rules.length = (ds.length + 1) * rules.length
    rw [List.length_map]
    ring

theorem mainModel_files_order
    (oracle : String → String → RuleSpec → Except ThrownErr String)
    (parse : String → Except String RuleResult)
    (rules : List RuleSpec) (docs : List (String × String)) :
    (mainModel oracle parse rules (okDocs docs)).map (fun fr => fr.file) =
      docs.map (fun d => d.1) := by
  induction docs with
  | nil => rfl
  | cons d ds ih =>
    simp only [mainModel, okDocs, List.map_cons] at ih ⊢
    rw [ih]
    rfl

theorem mainModel_pairs
    (oracle : String → String → RuleSpec → Except ThrownErr String)
    (parse : String → Except String RuleResult)
    (rules : List RuleSpec) (docs : List (String × String)) :
    (mainModel oracle parse rules (okDocs docs)).flatMap
        (fun fr => fr.rules.map (fun r => (fr.file, r.id))) =
      docs.flatMap (fun d => rules.map (fun r => (d.1, r.id))) := by
  induction docs with
  | nil => rfl
  | cons d ds ih =>
    simp only [mainModel, okDocs, List.map_cons, List.flatMap_cons] at ih ⊢
    rw [ih]
    congr 1
    show (rules.map (lintTask oracle parse d.1 d.2)).map
        (fun r => ((lintOneModel oracle parse d.1 d.2 rules).file, r.id)) =
      rules.map (fun r => (d.1, r.id))
    rw [List.map_map]
    refine List.map_congr_left ?_
    intro r _
    show ((lintOneModel oracle parse d.1 d.2 rules).file,
      (lintTask oracle parse d.1 d.2 r).id) = (d.1, r.id)
    rw [lintTask_id]
    rfl

/-! ## Claim theorem: scheduler correctness (C1) -/

/-- Claim C1: over every interleaving of the pull-cursor pool, no task index
is ever claimed twice (the claim history has no duplicates) and a finished
run has filled every result slot with its own task's value, in task order —
for every worker limit `≥ 1`, including more workers than tasks; composing
the per-file and per-rule levels, the run produces exactly
`len(documents) * len(rules)` rule judgments, the (document, rule) pairs of
the output are exactly the input pairs in order (each exactly once), and the
document results are in input document order. -/
theorem claim_C1 {τ : Type}
    (tasks : List τ) (limit : Nat) (s : PoolState τ)
    (oracle : String → String → RuleSpec → Except ThrownErr String)
    (parse : String → Except String RuleResult)
    (rules : List RuleSpec) (docs : List (String × String))
    (hlim : 1 ≤ limit) (hreach : poolReach tasks limit s) :
    s.claims.Nodup
    ∧ (FinalPool s → s.results = tasks.map some)
    ∧ ((mainModel oracle parse rules (okDocs docs)).map
        (fun fr => fr.rules.length)).sum = docs.length * rules.length
    ∧ (mainModel oracle parse rules (okDocs docs)).map (fun fr => fr.file) =
        docs.map (fun d => d.1)
    ∧ (mainModel oracle parse rules (okDocs docs)).flatMap
        (fun fr => fr.rules.map (fun r => (fr.file, r.id))) =
        docs.flatMap (fun d => rules.map (fun r => (d.1, r.id))) := by
  have inv := poolInv_reach tasks limit s hreach
  refine ⟨inv.claimsSorted.nodup, ?_, mainModel_tasks_card oracle parse rules docs,
    mainModel_files_order oracle parse rules docs, mainModel_pairs oracle parse rules docs⟩
  intro hfin
  by_cases hn : tasks.length = 0
  · have h1 : s.results = [] := List.length_eq_zero.mp (inv.rlen.trans hn)
    have h2 : tasks = [] := List.length_eq_zero.mp hn
    rw [h1, h2]
    rfl
  · have hcur : tasks.length < s.cursor := by
      have hk : 0 < min limit tasks.length := by omega
      have hw0 : 0 < s.workers.length := by
        rw [inv.wlen]
        exact hk
      have hmem := List.getElem_mem hw0
      have hdone := hfin _ hmem
      exact inv.doneCur 0 (by rw [List.getElem?_eq_getElem hw0, hdone])
    apply List.ext_getElem?
    intro i
    by_cases hi : i < tasks.length
    · rcases inv.resFill i hi with hfill | ⟨_, hrest⟩
      · rw [hfill, List.getElem?_map]
        rw [List.getElem?_eq_getElem hi]
        rfl
      · rcases hrest with hc | ⟨w', hw'⟩
        · omega
        · have hmem := List.getElem?_mem hw'
          have := hfin _ hmem
          cases this
    · have h1 : s.results[i]? = none :=
        List.getElem?_eq_none (by rw [inv.rlen]; omega)
      have h2 : (tasks.map some)[i]? = none :=
        List.getElem?_eq_none (by rw [List.length_map]; omega)
      rw [h1, h2]

/-- Witness for claim C1: a complete single-worker run over two tasks claims
each index once and fills the results in order; the pipeline conjuncts are
evaluated on 2 documents and 1 rule. -/
theorem claim_C1_witness :
    (⟨3, [WStatus.done], [some 10, some 20], [0, 1]⟩ : PoolState Nat).claims.Nodup
    ∧ (⟨3, [WStatus.done], [some 10, some 20], [0, 1]⟩ : PoolState Nat).results =
        ([10, 20] : List Nat).map some
    ∧ ((mainModel (fun _ _ _ => Except.ok "j")
        (fun _ => Except.ok ⟨"r1", true, "", []⟩) [⟨"r1", "md"⟩]
        (okDocs [("a.md", "x"), ("b.md", "y")])).map
          (fun fr => fr.rules.length)).sum =
        ([("a.md", "x"), ("b.md", "y")] : List (String × String)).length *
          ([⟨"r1", "md"⟩] : List RuleSpec).length := by
  have t1 : PoolStep [10, 20] (initPool [10, 20] 1)
      ⟨1, [WStatus.running 0], [none, none], [0]⟩ :=
    PoolStep.claimTask (initPool [10, 20] 1) 0 rfl (by decide)
  have t2 : PoolStep [10, 20] (⟨1, [WStatus.running 0], [none, none], [0]⟩ : PoolState Nat)
      ⟨1, [WStatus.idle], [some 10, none], [0]⟩ :=
    PoolStep.finishTask _ 0 0 rfl
  have t3 : PoolStep [10, 20] (⟨1, [WStatus.idle], [some 10, none], [0]⟩ : PoolState Nat)
      ⟨2, [WStatus.running 1], [some 10, none], [0, 1]⟩ :=
    PoolStep.claimTask _ 0 rfl (by decide)
  have t4 : PoolStep [10, 20] (⟨2, [WStatus.running 1], [some 10, none], [0, 1]⟩ : PoolState Nat)
      ⟨2, [WStatus.idle], [some 10, some 20], [0, 1]⟩ :=
    PoolStep.finishTask _ 0 1 rfl
  have t5 : PoolStep [10, 20] (⟨2, [WStatus.idle], [some 10, some 20], [0, 1]⟩ : PoolState Nat)
      ⟨3, [WStatus.done], [some 10, some 20], [0, 1]⟩ :=
    PoolStep.claimExhausted _ 0 rfl (by decide)
  have hreach : poolReach [10, 20] 1
      (⟨3, [WStatus.done], [some 10, some 20], [0, 1]⟩ : PoolState Nat) :=
    Relation.ReflTransGen.head t1 (Relation.ReflTransGen.head t2
      (Relation.ReflTransGen.head t3 (Relation.ReflTransGen.head t4
        (Relation.ReflTransGen.head t5 Relation.ReflTransGen.refl))))
  have h := claim_C1 [10, 20] 1
    (⟨3, [WStatus.done], [some 10, some 20], [0, 1]⟩ : PoolState Nat)
    (fun _ _ _ => Except.ok "j") (fun _ => Except.ok ⟨"r1", true, "", []⟩)
    [⟨"r1", "md"⟩] [("a.md", "x"), ("b.md", "y")] (by omega) hreach
  exact ⟨h.1, h.2.1 (fun w hw => List.mem_singleton.mp hw), h.2.2.1⟩

/-- Witness for claim C10: a fractional explicit line `7.9` in a later fix
entry wins over a matching quotation in an earlier entry and floors to 7. -/
theorem claim_C10_witness :
    deriveLine "hello\nworld".data
      [Fix.obj { quote := some "world".data }, Fix.obj { line := JsLine.fin (79/10) }] = 7 := by
  have he : explicitLineVal (Fix.obj { line := JsLine.fin (79/10) }) = some (79/10 : ℚ) := by
    simp only [explicitLineVal]
    rw [if_pos (by norm_num)]
  have h := claim_C10 "hello\nworld".data
    [Fix.obj { quote := some "world".data }, Fix.obj { line := JsLine.fin (79/10) }]
    (79/10 : ℚ) (by
      rw [List.findSome?_cons]
      rw [show explicitLineVal (Fix.obj { quote := some "world".data }) = none from rfl]
      rw [List.findSome?_cons, he])
  rw [h.1]
  norm_num [Int.floor_eq_iff]

end LlmLint
